import Mathlib

/-!
Shallow embedding of `dump_telegram_history.py` (catebi/ChatLoader).

The script exports an ordered sequence of Telegram messages: it normalizes
each raw message into a flat JSON-ready record (`to_serializable`),
optionally downloads media under a retry/backoff policy
(`download_with_retry`), paces itself (`maybe_rate_sleep`), and persists
records either as JSONL lines (streaming) or as numbered batch files
(`write_batch`).

Modelling conventions:
- Python attribute access that can raise `AttributeError` (direct access
  such as `msg.sender`, `msg.id`, `r.results`, `rr.reaction`) is
  `Except String _`, the error carrying `repr(e)`.
- `getattr(x, "f", None)` is `Option _`; `getattr(x, "f", 0)` is
  `Option _` read through `Option.getD 0`.
- Python truthiness: `None` is falsy, `""` is falsy, `0` is falsy,
  objects are truthy.
- Seconds/backoff durations (Python floats; only `max`, `+`, doubling
  are applied, all exact) are modelled as `ℚ`.
- `await asyncio.sleep d` is modelled by logging `d` in a sleep trace.
- The environment's response to each `msg.download_media` call is an
  `Outcome`; a run of `download_with_retry` consumes a finite trace of
  outcomes, and an exhausted trace models a run that has not terminated.
-/

deriving instance DecidableEq for Except

/-- A Telegram user object, as read by `getattr(s, _, None)`. -/
structure Sender where
  username : Option String
  first_name : Option String
  last_name : Option String
deriving DecidableEq, Repr

/-- One aggregated reaction-count object: `getattr(x, "count", 0)`. -/
structure RawReactionResult where
  count : Option Int
deriving DecidableEq, Repr

/-- The object `rr.reaction`: emoticon / custom-document id / `str(rx)` form. -/
structure RawReaction where
  emoticon : Option String
  document_id : Option Int
  str : String
deriving DecidableEq, Repr

/-- One element of `r.recent_reactions`; reading `rr.reaction` may raise. -/
structure RawRecent where
  reaction : Except String RawReaction
deriving DecidableEq, Repr

/-- The message's reaction container: `r.results` may raise (direct access
inside a `try`), and may be `None`; `recent_reactions` is a `getattr`. -/
structure RawReactions where
  results : Except String (Option (List RawReactionResult))
  recent_reactions : Option (List RawRecent)
deriving DecidableEq, Repr

/-- A raw message as consumed by `to_serializable`: `sender` and `id` are
direct attribute accesses (may raise), everything else is defensive
`getattr`.  `date` stands for the already-rendered `isoformat()` string.
`media` is `some ()` when the message carries a (truthy) media object. -/
structure RawRecord where
  sender : Except String (Option Sender)
  id : Except String Int
  date : Option String
  chat_id : Option Int
  sender_id : Option Int
  message : Option String
  reply_to_msg_id : Option Int
  views : Option Int
  forwards : Option Int
  reactions : Option RawReactions
  media : Option Unit
deriving DecidableEq, Repr

/-- The `{"total": _, "recent": [...]}` dict built by `serialize_reactions`. -/
structure ReactionSummary where
  total : Option Int
  recent : List (Option String)
deriving DecidableEq, Repr

/-- The flat dict returned by `to_serializable`; `media_path`/`media_error`
are attached post-hoc by the main loop, hence default `none`. -/
structure NormalizedRecord where
  id : Int
  date : Option String
  chat_id : Option Int
  sender_id : Option Int
  sender_username : Option String
  sender_first_name : Option String
  sender_last_name : Option String
  message : Option String
  reply_to_msg_id : Option Int
  views : Option Int
  forwards : Option Int
  reactions : Option ReactionSummary
  media : Bool
  media_path : Option String := none
  media_error : Option String := none
deriving DecidableEq, Repr

/-- Body of the `for rr in (getattr(r, "recent_reactions", None) or [])`
loop: emoticon if truthy, else `custom:<doc_id>` if `doc_id` truthy, else
`str(rx)`; any raise inside the body appends `None`. -/
def recentEntry (rr : RawRecent) : Option String :=
  match rr.reaction with
  | .error _ => none
  | .ok rx =>
    match rx.emoticon with
    | some emo =>
      if emo ≠ "" then some emo
      else
        match rx.document_id with
        | some d => if d ≠ 0 then some ("custom:" ++ toString d) else some rx.str
        | none => some rx.str
    | none =>
      match rx.document_id with
      | some d => if d ≠ 0 then some ("custom:" ++ toString d) else some rx.str
      | none => some rx.str

/-- `serialize_reactions(r)`: `None` container yields `None`; otherwise
`total` is the guarded sum over `(r.results or [])` (`None` on raise) and
`recent` maps `recentEntry` over `(recent_reactions or [])`. -/
def serialize_reactions (r : Option RawReactions) : Option ReactionSummary :=
  match r with
  | none => none
  | some rc =>
    let total : Option Int :=
      match rc.results with
      | .error _ => none
      | .ok ro => some (((ro.getD []).map (fun x => x.count.getD 0)).sum)
    let recent : List (Option String) :=
      (rc.recent_reactions.getD []).map recentEntry
    some ⟨total, recent⟩

/-- `to_serializable(msg)`: `s = msg.sender` first, then the dict literal
whose first entry reads `msg.id`; either direct access propagates its
exception.  All remaining fields are defensive. -/
def to_serializable (msg : RawRecord) : Except String NormalizedRecord :=
  match msg.sender with
  | .error e => .error e
  | .ok s =>
  match msg.id with
  | .error e => .error e
  | .ok i =>
  .ok {
    id := i
    date := msg.date
    chat_id := msg.chat_id
    sender_id := msg.sender_id
    sender_username := match s with | some sd => sd.username | none => none
    sender_first_name := match s with | some sd => sd.first_name | none => none
    sender_last_name := match s with | some sd => sd.last_name | none => none
    message := msg.message
    reply_to_msg_id := msg.reply_to_msg_id
    views := msg.views
    forwards := msg.forwards
    reactions := serialize_reactions msg.reactions
    media := msg.media.isSome
  }

/-- Environment response to one `msg.download_media(media_dir)` call:
it returns a filename (already rendered through `str(fn)`), raises
`FloodWaitError` with `e.seconds`, or raises some other exception with
the given `repr`. -/
inductive Outcome where
  | success (fn : String)
  | floodWait (seconds : Nat)
  | err (e : String)
deriving DecidableEq, Repr

/-- Result of `download_with_retry`: `done path error downloads attempt
sleeps` records the returned pair, the number of `download_media` calls
made, the final value of the `attempt` counter, and the logged sleep
durations; `hang` means the outcome trace ran out before the loop
returned (the real loop is still running). -/
inductive DwrResult where
  | done (path : Option String) (error : Option String)
      (downloads : Nat) (attempt : Nat) (sleeps : List ℚ)
  | hang (downloads : Nat) (attempt : Nat) (sleeps : List ℚ)
deriving DecidableEq, Repr

/-- The `while True` loop of `download_with_retry`, one trace element per
`download_media` call.  State: downloads made so far, current `backoff`,
current `attempt`, sleep log. -/
def dwrLoop (maxRetries : Int) :
    List Outcome → Nat → ℚ → Nat → List ℚ → DwrResult
  | [], d, _, a, s => .hang d a s
  | .success fn :: _, d, _, a, s => .done (some fn) none (d + 1) a s
  | .floodWait w :: rest, d, b, a, s =>
      dwrLoop maxRetries rest (d + 1) b a (s ++ [(w : ℚ) + 1])
  | .err e :: rest, d, b, a, s =>
      if ((a : Int) + 1) > max 0 maxRetries then
        .done none (some e) (d + 1) (a + 1) s
      else
        dwrLoop maxRetries rest (d + 1) (if 0 < b then b * 2 else 0) (a + 1)
          (s ++ [b])

/-- `download_with_retry(msg)`: `if not media_dir: return None, None`,
else run the loop with `attempt = 0`, `backoff = max(0.0, retry_backoff)`. -/
def download_with_retry (mediaDir : Bool) (maxRetries : Int)
    (retryBackoff : ℚ) (trace : List Outcome) : DwrResult :=
  if mediaDir then dwrLoop maxRetries trace 0 (max 0 retryBackoff) 0 []
  else .done none none 0 0 []

/-- `maybe_rate_sleep()` as the list of sleeps it performs, in order.
`written` is the value of the outer `written` counter at call time (the
call site runs after `written += 1`, so it counts the current record). -/
def maybe_rate_sleep (sleep_per_msg : ℚ) (sleep_every : Int)
    (sleep_seconds : ℚ) (written : Nat) : List ℚ :=
  (if sleep_per_msg ≠ 0 ∧ 0 < sleep_per_msg then [sleep_per_msg] else []) ++
  (if sleep_every ≠ 0 ∧ 0 < sleep_every ∧ sleep_seconds ≠ 0 ∧ 0 < sleep_seconds then
    (if 0 < written ∧ (written : Int) % sleep_every = 0 then [sleep_seconds]
     else [])
   else [])

/-- One sink entry: a normalized record (possibly annotated with media
outcome) or the `{"id": ..., "error": repr(e)}` placeholder written when
the record's `try` block raised. -/
inductive Entry where
  | record (r : NormalizedRecord)
  | placeholder (id : Option Int) (error : String)
deriving DecidableEq, Repr

/-- `f"{idx:05d}"`: decimal digits left-padded with zeros to width 5. -/
def pad5 (n : Nat) : String :=
  String.mk (List.replicate (5 - (toString n).length) '0') ++ toString n

/-- The file name built by `write_batch`: `<stem>_part<NNNNN>.json`. -/
def batchFileName (base : String) (idx : Nat) : String :=
  base ++ "_part" ++ pad5 idx ++ ".json"

/-- The batch-mode accumulation loop: append each entry to `batch`; once
`len(batch) >= B`, flush `(batch_idx, batch)` and reset; after the source
is exhausted, `if batch: write_batch(batch, batch_idx)`. -/
def batchLoopAux (B : Nat) :
    List Entry → List Entry → Nat → List (Nat × List Entry)
  | [], batch, idx => if batch.isEmpty then [] else [(idx, batch)]
  | e :: rest, batch, idx =>
      let batch' := batch ++ [e]
      if B ≤ batch'.length then (idx, batch') :: batchLoopAux B rest [] (idx + 1)
      else batchLoopAux B rest batch' idx

/-- All batch files written for a full run over `entries` (first index 1). -/
def batchFiles (B : Nat) (entries : List Entry) : List (Nat × List Entry) :=
  batchLoopAux B entries [] 1

/-- `batching = isinstance(batch_size, int) and batch_size > 0`. -/
def batching (batch_size : Option Int) : Bool :=
  match batch_size with
  | some b => 0 < b
  | none => false

/-- The per-record body shared by both loops: normalize inside `try`
(a raise yields the placeholder, whose id is `getattr(msg, "id", None)`);
when media is present and a media dir is configured, run the fetcher and
attach `media_path` / `media_error` under Python truthiness checks.
`none` means the fetcher never returned (trace exhausted). -/
def pipelineEntry (mediaDir : Bool) (maxRetries : Int) (retryBackoff : ℚ)
    (msg : RawRecord) (trace : List Outcome) : Option Entry :=
  match to_serializable msg with
  | .error e => some (.placeholder msg.id.toOption e)
  | .ok rec0 =>
    if mediaDir && msg.media.isSome then
      match download_with_retry mediaDir maxRetries retryBackoff trace with
      | .done p e _ _ _ =>
          some (.record { rec0 with
            media_path :=
              match p with
              | some fn => if fn ≠ "" then some fn else none
              | none => none,
            media_error :=
              match e with
              | some er => if er ≠ "" then some er else none
              | none => none })
      | .hang _ _ _ => none
    else some (.record rec0)

/-- Streaming-mode run: the output file is opened with mode `"w"`
(created/truncated) before the loop, so `fileCreated` holds regardless of
how many records follow; `lines` is the JSONL line sequence, `none` if
some record's media fetch never returned. -/
structure StreamRun where
  fileCreated : Bool
  lines : Option (List Entry)
deriving DecidableEq, Repr

/-- The per-record loop over the whole source: one entry per record, in
traversal order; `none` if some record's media fetch never returned (the
real loop then never reaches the records after it). -/
def pipelineRun (mediaDir : Bool) (maxRetries : Int) (retryBackoff : ℚ) :
    List (RawRecord × List Outcome) → Option (List Entry)
  | [] => some []
  | it :: rest =>
    match pipelineEntry mediaDir maxRetries retryBackoff it.1 it.2 with
    | none => none
    | some en =>
      match pipelineRun mediaDir maxRetries retryBackoff rest with
      | none => none
      | some l => some (en :: l)

/-- The `if not batching:` branch of `main`. -/
def runStreaming (mediaDir : Bool) (maxRetries : Int) (retryBackoff : ℚ)
    (items : List (RawRecord × List Outcome)) : StreamRun :=
  { fileCreated := true
    lines := pipelineRun mediaDir maxRetries retryBackoff items }

/-- The batch-mode branch of `main`: produce every entry, then the flushed
files (the real loop interleaves flushing with production; over a completed
run the written files are exactly these). -/
def runBatching (mediaDir : Bool) (maxRetries : Int) (retryBackoff : ℚ)
    (B : Nat) (items : List (RawRecord × List Outcome)) :
    Option (List (Nat × List Entry)) :=
  (pipelineRun mediaDir maxRetries retryBackoff items).map (batchFiles B)

/-- The progress-bar total: source total (possibly unknown) clamped by the
configured `--limit` when present; `--limit` alone when only it is known. -/
def compute_total (sourceTotal limit : Option Int) : Option Int :=
  match limit with
  | none => sourceTotal
  | some l =>
    match sourceTotal with
    | some t => some (min t l)
    | none => some l

/-- A benign raw message: `sender` readable (and `None`), `id` readable. -/
def rawOk : RawRecord :=
  { sender := .ok none, id := .ok 7, date := none, chat_id := none,
    sender_id := none, message := some "hi", reply_to_msg_id := none,
    views := none, forwards := none, reactions := none, media := none }

/-- A raw message whose `sender` attribute access raises `AttributeError`. -/
def rawNoSender : RawRecord :=
  { sender := .error "AttributeError: sender", id := .ok 1, date := none,
    chat_id := none, sender_id := none, message := none,
    reply_to_msg_id := none, views := none, forwards := none,
    reactions := none, media := none }

/-- A benign raw message that carries media. -/
def rawMedia : RawRecord :=
  { sender := .ok none, id := .ok 8, date := none, chat_id := none,
    sender_id := none, message := none, reply_to_msg_id := none,
    views := none, forwards := none, reactions := none, media := some () }

/-- The normalized form of `rawOk`. -/
def recOk : NormalizedRecord :=
  { id := 7, date := none, chat_id := none, sender_id := none,
    sender_username := none, sender_first_name := none,
    sender_last_name := none, message := some "hi",
    reply_to_msg_id := none, views := none, forwards := none,
    reactions := none, media := false }

/-- A reaction container whose `results` access raises and whose first
recent entry is undecodable. -/
def rcEx : RawReactions :=
  { results := .error "TypeError",
    recent_reactions := some
      [⟨.error "ValueError"⟩, ⟨.ok ⟨some "A", none, "R"⟩⟩] }

/-- Three placeholder entries, a concrete batch-mode input. -/
def entriesEx : List Entry :=
  [.placeholder (some 1) "a", .placeholder (some 2) "b",
   .placeholder (some 3) "c"]

/-- A concrete two-record source: one benign record, one whose
normalization raises. -/
def itemsEx : List (RawRecord × List Outcome) :=
  [(rawOk, []), (rawNoSender, [])]

/-- The streaming output for `itemsEx`. -/
def linesEx : List Entry :=
  [.record recOk, .placeholder (some 1) "AttributeError: sender"]

/-- C9: the Progress Tracker's displayed total is the minimum of the
source's known total and the configured record limit when both are
available, and is absent (no denominator) when neither is known. -/
theorem c9_progress_total :
    (∀ t l : Int, compute_total (some t) (some l) = some (min t l)) ∧
    compute_total none none = none :=
  ⟨fun _ _ => rfl, rfl⟩

/-- C10: on an empty source, streaming mode still creates/truncates the
output file (leaving it empty with zero lines), while batch mode writes
no batch file at all. -/
theorem c10_empty_source_asymmetry :
    ∀ (mediaDir : Bool) (R : Int) (b : ℚ) (B : Nat),
      (runStreaming mediaDir R b []).fileCreated = true ∧
      (runStreaming mediaDir R b []).lines = some [] ∧
      runBatching mediaDir R b B [] = some [] := by
  intro mediaDir R b B
  exact ⟨rfl, rfl, rfl⟩

/-- C5 counterexample: with `--sleep-every 5 --sleep-seconds 1` and no
per-record delay, the invocation after the 6th record (5 records
processed prior to it, a non-zero multiple of 5) performs no interval
sleep, while the invocation after the 5th record (4 prior, not a
multiple) does sleep — the interval condition tests the counter
including the current record, not the prior count. -/
theorem c5_counterexample :
    maybe_rate_sleep 0 5 1 6 = [] ∧ (6 - 1) % 5 = 0 ∧ 6 - 1 ≠ 0 ∧
    maybe_rate_sleep 0 5 1 5 = [1] ∧ (5 - 1) % 5 ≠ 0 := by
  refine ⟨?_, by decide, by decide, ?_, by decide⟩ <;> decide

/-- C5 amended: per-record delay is slept whenever positive; the interval
delay is additionally slept when both interval parameters are positive and
the number of records processed so far *including the current record* is
non-zero and an exact multiple of N; both sleeps can occur together. -/
theorem c5_amended (p : ℚ) (e : Int) (s : ℚ) (written : Nat) :
    maybe_rate_sleep p e s written =
      (if 0 < p then [p] else []) ++
      (if 0 < e ∧ 0 < s ∧ 0 < written ∧ (written : Int) % e = 0 then [s]
       else []) := by
  unfold maybe_rate_sleep
  by_cases hp : 0 < p <;> by_cases he : 0 < e <;> by_cases hs : 0 < s <;>
    by_cases hw : 0 < written ∧ (written : Int) % e = 0 <;>
      simp [hp, he, hs, hw, ne_of_gt]

lemma dwrLoop_flood_then_success (R : Int) (fn : String) :
    ∀ (ws : List Nat) (d a : Nat) (b : ℚ) (s : List ℚ),
      dwrLoop R (ws.map Outcome.floodWait ++ [Outcome.success fn]) d b a s =
        .done (some fn) none (d + ws.length + 1) a
          (s ++ ws.map (fun w : Nat => (w : ℚ) + 1))
  | [], d, a, b, s => by simp [dwrLoop]
  | w :: ws, d, a, b, s => by
      simp only [List.map_cons, List.cons_append, dwrLoop, List.append_eq]
      rw [dwrLoop_flood_then_success R fn ws (d + 1) a b (s ++ [(w : ℚ) + 1])]
      simp only [List.append_assoc, List.singleton_append, List.length_cons]
      congr 1
      omega

/-- C3: any finite run of throttling signals followed by a success yields
success; each throttling signal sleeps `wait + 1` and performs one more
download call, and the `attempt` counter used for the retry budget stays
at its initial value 0 throughout. -/
theorem c3_floodwait_not_counted (R : Int) (b : ℚ) (ws : List Nat)
    (fn : String) :
    download_with_retry true R b
        (ws.map Outcome.floodWait ++ [Outcome.success fn]) =
      .done (some fn) none (ws.length + 1) 0
        (ws.map (fun w : Nat => (w : ℚ) + 1)) := by
  unfold download_with_retry
  rw [if_pos rfl, dwrLoop_flood_then_success]
  simp

lemma dwrLoop_all_err (R : Int) (e : String) :
    ∀ (r : Nat), ∀ (n d a : Nat) (b : ℚ) (s : List ℚ), 0 ≤ b → r + 1 ≤ n →
      a + r = (max 0 R).toNat →
      dwrLoop R (List.replicate n (Outcome.err e)) d b a s =
        .done none (some e) (d + r + 1) ((max 0 R).toNat + 1)
          (s ++ (List.range r).map (fun i => 2 ^ i * b)) := by
  have hM : (0 : Int) ≤ max 0 R := le_max_left 0 R
  intro r
  induction r with
  | zero =>
    intro n d a b s hb hn ha
    obtain ⟨m, rfl⟩ : ∃ m, n = m + 1 := ⟨n - 1, by omega⟩
    simp only [List.replicate_succ, dwrLoop]
    rw [if_pos (by omega)]
    simp only [List.range_zero, List.map_nil, List.append_nil]
    congr 1
    omega
  | succ r ih =>
    intro n d a b s hb hn ha
    obtain ⟨m, rfl⟩ : ∃ m, n = m + 1 := ⟨n - 1, by omega⟩
    simp only [List.replicate_succ, dwrLoop]
    rw [if_neg (by omega)]
    have hb2 : (if 0 < b then b * 2 else 0) = b * 2 := by
      rcases eq_or_lt_of_le hb with h | h
      · simp [← h]
      · simp [h]
    rw [hb2, ih m (d + 1) (a + 1) (b * 2) (s ++ [b]) (by positivity) (by omega)
      (by omega)]
    have hsl : s ++ [b] ++ (List.range r).map (fun i => 2 ^ i * (b * 2)) =
        s ++ (List.range (r + 1)).map (fun i => 2 ^ i * b) := by
      rw [List.append_assoc, List.singleton_append, List.range_succ_eq_map,
        List.map_cons, List.map_map, pow_zero, one_mul]
      refine congrArg (s ++ ·) (congrArg (b :: ·) ?_)
      refine List.map_congr_left fun i _ => ?_
      simp only [Function.comp_apply, pow_succ]
      ring
    rw [hsl]
    congr 1
    omega

/-- C2: against a source that raises a non-throttling error on every
attempt, with configured maximum retries R the fetcher makes exactly
`1 + max 0 R` download attempts, sleeps the current backoff before each
retry with the backoff doubling each time (a zero backoff stays zero,
since then every `2 ^ i * 0` sleep is zero), and returns the terminal
failure pair `(None, repr e)` — a value, not an escaped exception. -/
theorem c2_transient_retry_budget (R : Int) (b : ℚ) (e : String) (n : Nat)
    (hn : (max 0 R).toNat + 1 ≤ n) :
    download_with_retry true R b (List.replicate n (Outcome.err e)) =
      .done none (some e) ((max 0 R).toNat + 1) ((max 0 R).toNat + 1)
        ((List.range (max 0 R).toNat).map (fun i => 2 ^ i * max 0 b)) := by
  unfold download_with_retry
  rw [if_pos rfl,
    dwrLoop_all_err R e ((max 0 R).toNat) n 0 0 (max 0 b) []
      (le_max_left 0 b) hn (by omega)]
  simp

/-- C2 witness: max retries 3, backoff 1, four straight errors: 4 download
attempts, failure carrying the error description, sleeps 1, 2, 4. -/
theorem c2_transient_retry_budget_witness :
    (max 0 (3 : Int)).toNat + 1 ≤ 4 ∧
    download_with_retry true 3 1 (List.replicate 4 (Outcome.err "boom")) =
      .done none (some "boom") ((max 0 (3 : Int)).toNat + 1)
        ((max 0 (3 : Int)).toNat + 1)
        ((List.range (max 0 (3 : Int)).toNat).map
          (fun i => 2 ^ i * max 0 (1 : ℚ))) :=
  ⟨by decide, c2_transient_retry_budget 3 1 "boom" 4 (by decide)⟩

lemma dwrLoop_done_exclusive (R : Int) (trace : List Outcome) :
    ∀ (d : Nat) (b : ℚ) (a : Nat) (s : List ℚ) (p e : Option String)
      (dl fa : Nat) (sl : List ℚ),
      dwrLoop R trace d b a s = .done p e dl fa sl →
      (∃ fn, p = some fn ∧ e = none) ∨ (p = none ∧ ∃ er, e = some er) := by
  induction trace with
  | nil => intro d b a s p e dl fa sl h; simp [dwrLoop] at h
  | cons o rest ih =>
    intro d b a s p e dl fa sl h
    cases o with
    | success fn =>
      simp only [dwrLoop, DwrResult.done.injEq] at h
      exact Or.inl ⟨fn, h.1.symm, h.2.1.symm⟩
    | floodWait w => exact ih _ _ _ _ _ _ _ _ _ h
    | err er =>
      simp only [dwrLoop] at h
      split at h
      · simp only [DwrResult.done.injEq] at h
        exact Or.inr ⟨h.1.symm, er, h.2.1.symm⟩
      · exact ih _ _ _ _ _ _ _ _ _ h

lemma to_serializable_ok_media_fields (msg : RawRecord)
    (r : NormalizedRecord) (h : to_serializable msg = .ok r) :
    r.media_path = none ∧ r.media_error = none := by
  unfold to_serializable at h
  cases hs : msg.sender with
  | error es => rw [hs] at h; exact absurd h (by simp)
  | ok s =>
    cases hi : msg.id with
    | error ei => rw [hs, hi] at h; exact absurd h (by simp)
    | ok i =>
      rw [hs, hi] at h
      simp only [Except.ok.injEq] at h
      subst h
      exact ⟨rfl, rfl⟩

/-- C8: with a media directory configured the fetcher's returned pair is
exactly one of a path or a failure reason (never both, never neither);
hence a record entry carries at most one of `media_path` / `media_error`,
and carries neither when media is absent or no media directory is
configured. -/
theorem c8_media_outcome_exclusive
    (mediaDir : Bool) (R : Int) (b : ℚ) (msg : RawRecord)
    (trace : List Outcome) :
    (∀ p e dl fa sl,
        download_with_retry true R b trace = .done p e dl fa sl →
        (∃ fn, p = some fn ∧ e = none) ∨ (p = none ∧ ∃ er, e = some er)) ∧
    (∀ en, pipelineEntry mediaDir R b msg trace = some en →
      ∀ r, en = .record r →
        ¬(r.media_path.isSome ∧ r.media_error.isSome) ∧
        ((mediaDir = false ∨ msg.media = none) →
          r.media_path = none ∧ r.media_error = none)) := by
  constructor
  · intro p e dl fa sl h
    unfold download_with_retry at h
    rw [if_pos rfl] at h
    exact dwrLoop_done_exclusive R trace _ _ _ _ p e dl fa sl h
  · intro en hen r hr
    subst hr
    unfold pipelineEntry at hen
    split at hen
    · simp at hen
    · rename_i rec0 hts
      split at hen
      · rename_i hmd
        have hmdir : mediaDir = true := (Bool.and_eq_true _ _).mp hmd |>.1
        have hmedia : msg.media.isSome = true :=
          (Bool.and_eq_true _ _).mp hmd |>.2
        split at hen
        · rename_i p e dl fa sl hdw
          rw [hmdir] at hdw
          simp only [Option.some.injEq, Entry.record.injEq] at hen
          subst hen
          have hex :=
            dwrLoop_done_exclusive R trace _ _ _ _ p e dl fa sl
              (by rw [download_with_retry, if_pos rfl] at hdw; exact hdw)
          constructor
          · rcases hex with ⟨fn, hp, he⟩ | ⟨hp, er, he⟩ <;> subst hp <;>
              subst he <;> simp
          · rintro (hc | hc)
            · rw [hc] at hmdir; exact absurd hmdir (by simp)
            · rw [hc] at hmedia; exact absurd hmedia (by simp)
        · simp at hen
      · simp only [Option.some.injEq, Entry.record.injEq] at hen
        subst hen
        have hf := to_serializable_ok_media_fields msg rec0 hts
        exact ⟨by simp [hf.1, hf.2], fun _ => hf⟩

/-- C8 witness: a trace that succeeds at once yields a path and no error. -/
theorem c8_media_outcome_exclusive_witness :
    (∃ fn, (some "f" : Option String) = some fn ∧
        (none : Option String) = none) ∨
      ((some "f" : Option String) = none ∧
        ∃ er, (none : Option String) = some er) :=
  (c8_media_outcome_exclusive true 3 1 rawMedia [Outcome.success "f"]).1
    (some "f") none 1 0 [] (by decide)

/-- C7 counterexample: a RawRecord whose `sender` attribute is absent
(the direct access `s = msg.sender` raises) makes the Normalizer raise
instead of producing a NormalizedRecord — `to_serializable` is not total
over records with a missing sender. -/
theorem c7_normalizer_not_total_counterexample :
    to_serializable rawNoSender = .error "AttributeError: sender" := by
  decide

/-- C7 amended: the Normalizer is total on every RawRecord whose `sender`
and `id` attributes are readable (the sender itself may be null): all
other absent or malformed fields yield null/absent values rather than an
exception.  A record whose `sender` or `id` access raises propagates the
exception, which the Orchestrator converts to a placeholder entry. -/
theorem c7_normalizer_total_amended (msg : RawRecord) (s : Option Sender)
    (i : Int) (hs : msg.sender = .ok s) (hi : msg.id = .ok i) :
    to_serializable msg = .ok {
      id := i
      date := msg.date
      chat_id := msg.chat_id
      sender_id := msg.sender_id
      sender_username := match s with | some sd => sd.username | none => none
      sender_first_name :=
        match s with | some sd => sd.first_name | none => none
      sender_last_name := match s with | some sd => sd.last_name | none => none
      message := msg.message
      reply_to_msg_id := msg.reply_to_msg_id
      views := msg.views
      forwards := msg.forwards
      reactions := serialize_reactions msg.reactions
      media := msg.media.isSome } := by
  simp only [to_serializable, hs, hi]
  cases s <;> rfl

/-- C7 amended witness: a concrete benign record normalizes successfully. -/
theorem c7_normalizer_total_amended_witness :
    to_serializable rawOk = .ok recOk :=
  c7_normalizer_total_amended rawOk none 7 rfl rfl

/-- C6: an absent reaction container yields `reactions = none`; a present
one yields a summary whose total is the sum of per-result counts when the
`results` access succeeds and `none` when it raises, and whose `recent`
list has one entry per recent reaction, positionally: `none` for an entry
whose decoding raises, the emoticon when truthy, else `custom:<doc id>`
when a truthy document id exists, else the best-effort string form. -/
theorem c6_reaction_decoding (rc : RawReactions) :
    serialize_reactions none = none ∧
    ∃ s, serialize_reactions (some rc) = some s ∧
      (∀ x, rc.results = .error x → s.total = none) ∧
      (∀ ro, rc.results = .ok ro →
        s.total = some (((ro.getD []).map (fun y => y.count.getD 0)).sum)) ∧
      s.recent.length = (rc.recent_reactions.getD []).length ∧
      (∀ i : Nat, s.recent[i]? =
        ((rc.recent_reactions.getD [])[i]?).map recentEntry) ∧
      (∀ i : Nat, ∀ rr er, (rc.recent_reactions.getD [])[i]? = some rr →
        rr.reaction = .error er → s.recent[i]? = some none) ∧
      (∀ rr rx emo, rr.reaction = .ok rx → rx.emoticon = some emo →
        emo ≠ "" → recentEntry rr = some emo) ∧
      (∀ rr rx d, rr.reaction = .ok rx →
        (rx.emoticon = none ∨ rx.emoticon = some "") →
        rx.document_id = some d → d ≠ 0 →
        recentEntry rr = some ("custom:" ++ toString d)) ∧
      (∀ rr rx, rr.reaction = .ok rx →
        (rx.emoticon = none ∨ rx.emoticon = some "") →
        (rx.document_id = none ∨ rx.document_id = some 0) →
        recentEntry rr = some rx.str) := by
  refine ⟨rfl, _, rfl, ?_, ?_, ?_, ?_, ?_, ?_, ?_, ?_⟩
  · intro x hx
    simp [serialize_reactions, hx]
  · intro ro hro
    simp [serialize_reactions, hro]
  · simp [serialize_reactions]
  · intro i
    simp [serialize_reactions, List.getElem?_map]
  · intro i rr er h1 h2
    simp [serialize_reactions, List.getElem?_map, h1, recentEntry, h2]
  · intro rr rx emo hok hemo hne
    simp [recentEntry, hok, hemo, hne]
  · intro rr rx d hok hemo hd hne
    rcases hemo with hemo | hemo <;>
      simp [recentEntry, hok, hemo, hd, hne]
  · intro rr rx hok hemo hd
    rcases hemo with hemo | hemo <;> rcases hd with hd | hd <;>
      simp [recentEntry, hok, hemo, hd]

/-- C6 witness: a container whose `results` access raises and whose first
recent entry is undecodable yields total `none` and a positional `none`
followed by the decoded emoticon. -/
theorem c6_reaction_decoding_witness :
    ∃ s, serialize_reactions (some rcEx) = some s ∧ s.total = none ∧
      s.recent[0]? = some none ∧ s.recent[1]? = some (some "A") := by
  obtain ⟨-, s, hs, htot, -, -, hpos, herr, -, -, -⟩ := c6_reaction_decoding rcEx
  refine ⟨s, hs, htot "TypeError" rfl, ?_, ?_⟩
  · exact herr 0 ⟨.error "ValueError"⟩ "ValueError" rfl rfl
  · rw [hpos 1]
    rfl

lemma batchLoopAux_join (B : Nat) :
    ∀ (es batch : List Entry) (idx : Nat),
      ((batchLoopAux B es batch idx).map Prod.snd).flatten = batch ++ es := by
  intro es
  induction es with
  | nil =>
    intro batch idx
    by_cases h : batch.isEmpty
    · simp [batchLoopAux, h, List.isEmpty_iff.mp h]
    · simp [batchLoopAux, h]
  | cons e rest ih =>
    intro batch idx
    simp only [batchLoopAux]
    split
    · simp [ih]
    · simp [ih]

lemma batchLoopAux_length (B : Nat) (hB : 0 < B) :
    ∀ (es batch : List Entry) (idx : Nat), batch.length < B →
      (batchLoopAux B es batch idx).length =
        (batch.length + es.length + B - 1) / B := by
  intro es
  induction es with
  | nil =>
    intro batch idx hlt
    by_cases h : batch.isEmpty
    · have hb : batch = [] := List.isEmpty_iff.mp h
      subst hb
      rw [show batchLoopAux B [] [] idx = [] from rfl]
      simp only [List.length_nil, Nat.add_zero, Nat.zero_add]
      rw [Nat.div_eq_of_lt (by omega)]
    · have hrw : batchLoopAux B ([] : List Entry) batch idx = [(idx, batch)] := by
        simp [batchLoopAux, h]
      have hne : batch ≠ [] := fun hc => h (by simp [hc])
      have hpos : 0 < batch.length := List.length_pos.mpr hne
      rw [hrw, List.length_singleton, List.length_nil,
        show batch.length + 0 + B - 1 = (batch.length - 1) + B by omega,
        Nat.add_div_right _ hB, Nat.div_eq_of_lt (by omega)]
  | cons e rest ih =>
    intro batch idx hlt
    have happ : (batch ++ [e]).length = batch.length + 1 := by simp
    simp only [batchLoopAux]
    split
    · rename_i hfl
      have hlen : batch.length + 1 = B := by omega
      rw [List.length_cons, ih [] (idx + 1) (by simpa using hB)]
      simp only [List.length_nil, List.length_cons, Nat.zero_add]
      rw [show batch.length + (rest.length + 1) + B - 1 =
        (rest.length + B - 1) + B by omega, Nat.add_div_right _ hB]
    · rename_i hfl
      rw [ih (batch ++ [e]) idx (by omega)]
      congr 1
      simp only [List.length_cons, happ]
      omega

lemma batchLoopAux_fst (B : Nat) :
    ∀ (es batch : List Entry) (idx : Nat),
      (batchLoopAux B es batch idx).map Prod.fst =
        List.range' idx (batchLoopAux B es batch idx).length := by
  intro es
  induction es with
  | nil =>
    intro batch idx
    by_cases h : batch.isEmpty <;> simp [batchLoopAux, h]
  | cons e rest ih =>
    intro batch idx
    simp only [batchLoopAux]
    split
    · simp only [List.map_cons, List.length_cons, List.range'_succ, ih]
    · exact ih _ _

lemma batchLoopAux_sizes (B : Nat) (hB : 0 < B) :
    ∀ (es batch : List Entry) (idx : Nat), batch.length < B →
      (∀ x ∈ (batchLoopAux B es batch idx).dropLast, x.2.length = B) ∧
      (∀ x ∈ batchLoopAux B es batch idx,
        0 < x.2.length ∧ x.2.length ≤ B) := by
  intro es
  induction es with
  | nil =>
    intro batch idx hlt
    by_cases h : batch.isEmpty
    · have hb : batch = [] := List.isEmpty_iff.mp h
      subst hb
      constructor
      · intro x hx
        simp [batchLoopAux] at hx
      · intro x hx
        simp [batchLoopAux] at hx
    · have hrw : batchLoopAux B ([] : List Entry) batch idx = [(idx, batch)] := by
        simp [batchLoopAux, h]
      have hne : batch ≠ [] := fun hc => h (by simp [hc])
      constructor
      · intro x hx
        rw [hrw] at hx
        simp at hx
      · intro x hx
        rw [hrw, List.mem_singleton] at hx
        subst hx
        exact ⟨List.length_pos.mpr hne, le_of_lt hlt⟩
  | cons e rest ih =>
    intro batch idx hlt
    have happ : (batch ++ [e]).length = batch.length + 1 := by simp
    simp only [batchLoopAux]
    split
    · rename_i hfl
      have hlen : (batch ++ [e]).length = B := by omega
      obtain ⟨ihd, ihm⟩ := ih [] (idx + 1) (by simpa using hB)
      constructor
      · intro x hx
        rcases hrec : batchLoopAux B rest [] (idx + 1) with _ | ⟨y, ys⟩
        · rw [hrec] at hx
          simp at hx
        · rw [hrec, List.dropLast_cons₂] at hx
          rcases List.mem_cons.mp hx with hx | hx
          · subst hx
            exact hlen
          · exact ihd x (by rw [hrec]; exact hx)
      · intro x hx
        rcases List.mem_cons.mp hx with hx | hx
        · subst hx
          constructor
          · show 0 < (batch ++ [e]).length
            omega
          · show (batch ++ [e]).length ≤ B
            omega
        · exact ihm x hx
    · rename_i hfl
      exact ih (batch ++ [e]) idx (by omega)

/-- C4: in batch mode with B > 0, a completed run writes exactly
`ceil(N/B)` files; every file except possibly the last holds exactly B
entries and the last is non-empty with at most B; sequence numbers are
contiguous from 1 and the file names are `<base>_part<NNNNN>.json` over
those numbers; the final non-empty remainder is flushed like any batch;
and concatenating the files in order reproduces the entry sequence. -/
theorem c4_batch_partition (B : Nat) (es : List Entry) (base : String)
    (hB : 0 < B) :
    (batchFiles B es).length = (es.length + B - 1) / B ∧
    ((batchFiles B es).map Prod.snd).flatten = es ∧
    (batchFiles B es).map Prod.fst =
      List.range' 1 ((batchFiles B es).length) ∧
    (∀ x ∈ (batchFiles B es).dropLast, x.2.length = B) ∧
    (∀ x ∈ batchFiles B es, 0 < x.2.length ∧ x.2.length ≤ B) ∧
    (es ≠ [] → batchFiles B es ≠ []) ∧
    (batchFiles B es).map (fun f => batchFileName base f.1) =
      (List.range' 1 ((batchFiles B es).length)).map (batchFileName base) := by
  have h1 := batchLoopAux_length B hB es [] 1 (by simpa using hB)
  have h2 := batchLoopAux_join B es [] 1
  have h3 := batchLoopAux_fst B es [] 1
  have h4 := batchLoopAux_sizes B hB es [] 1 (by simpa using hB)
  refine ⟨by simpa [batchFiles] using h1, h2, h3, h4.1, h4.2, ?_, ?_⟩
  · intro hne hnil
    have hz : (batchFiles B es).length = 0 := by rw [hnil]; rfl
    have ho : 1 ≤ (batchFiles B es).length := by
      rw [show batchFiles B es = batchLoopAux B es [] 1 from rfl, h1]
      refine (Nat.one_le_div_iff hB).mpr ?_
      have : 1 ≤ es.length := List.length_pos.mpr hne
      simp only [List.length_nil, Nat.zero_add]
      omega
    omega
  · have h3' : (batchFiles B es).map Prod.fst =
        List.range' 1 ((batchFiles B es).length) := h3
    calc (batchFiles B es).map (fun f => batchFileName base f.1)
        = ((batchFiles B es).map Prod.fst).map (batchFileName base) := by
          rw [List.map_map]; rfl
      _ = (List.range' 1 ((batchFiles B es).length)).map
            (batchFileName base) := by rw [h3']

/-- C4 witness: batch size 2 over three entries: concatenation of the
flushed files reproduces the entries. -/
theorem c4_batch_partition_witness :
    ((batchFiles 2 entriesEx).map Prod.snd).flatten = entriesEx :=
  (c4_batch_partition 2 entriesEx "messages" (by decide)).2.1

lemma pipelineRun_forall₂ (mediaDir : Bool) (R : Int) (b : ℚ) :
    ∀ (items : List (RawRecord × List Outcome)) (l : List Entry),
      pipelineRun mediaDir R b items = some l →
      List.Forall₂
        (fun it en => pipelineEntry mediaDir R b it.1 it.2 = some en)
        items l := by
  intro items
  induction items with
  | nil =>
    intro l h
    simp only [pipelineRun, Option.some.injEq] at h
    subst h
    exact List.Forall₂.nil
  | cons it rest ih =>
    intro l h
    simp only [pipelineRun] at h
    cases hen : pipelineEntry mediaDir R b it.1 it.2 with
    | none => rw [hen] at h; simp at h
    | some en =>
      rw [hen] at h
      cases hrest : pipelineRun mediaDir R b rest with
      | none => rw [hrest] at h; simp at h
      | some tl =>
        rw [hrest] at h
        simp only [Option.some.injEq] at h
        subst h
        exact List.Forall₂.cons hen (ih tl hrest)

/-- C1: on a completed run over N source records, streaming mode emits
exactly N lines, positionally: the i-th line is the processed form of the
i-th record (so no record is dropped, duplicated, or reordered, however
many per-record failures occur), a record whose normalization raises
appears as its placeholder in its original position, and batch mode over
the same records flushes files whose in-order concatenation is that same
N-entry sequence. -/
theorem c1_pipeline_preserves_records (mediaDir : Bool) (R : Int) (b : ℚ)
    (items : List (RawRecord × List Outcome)) (l : List Entry)
    (h : (runStreaming mediaDir R b items).lines = some l) :
    l.length = items.length ∧
    (∀ i (hi : i < items.length) (hl : i < l.length),
      pipelineEntry mediaDir R b (items.get ⟨i, hi⟩).1 (items.get ⟨i, hi⟩).2 =
        some (l.get ⟨i, hl⟩)) ∧
    (∀ i (hi : i < items.length) (hl : i < l.length) e,
      to_serializable (items.get ⟨i, hi⟩).1 = .error e →
      l.get ⟨i, hl⟩ =
        .placeholder ((items.get ⟨i, hi⟩).1.id.toOption) e) ∧
    (∀ B : Nat, 0 < B →
      runBatching mediaDir R b B items = some (batchFiles B l) ∧
      ((batchFiles B l).map Prod.snd).flatten = l) := by
  have hrun : pipelineRun mediaDir R b items = some l := h
  have hf := pipelineRun_forall₂ mediaDir R b items l hrun
  obtain ⟨hlen, hget⟩ := List.forall₂_iff_get.mp hf
  refine ⟨hlen.symm, ?_, ?_, ?_⟩
  · intro i hi hl
    exact hget i hi hl
  · intro i hi hl e he
    have := hget i hi hl
    rw [pipelineEntry, he] at this
    simp only [Option.some.injEq] at this
    exact this.symm
  · intro B hB
    constructor
    · rw [runBatching, hrun]
      rfl
    · simpa using batchLoopAux_join B l [] 1

/-- C1 witness: two records, the second of which fails normalization,
produce exactly two lines in source order. -/
theorem c1_pipeline_preserves_records_witness :
    linesEx.length = itemsEx.length :=
  (c1_pipeline_preserves_records false 3 1 itemsEx linesEx (by decide)).1
